import Mathlib

/-!
Verification development for the langchaingo-graphs repository.

The development shallowly embeds the Go sources:
* the in-memory entity model (`Node`, `Relationship`, `GraphDocument` and
  their methods) from the `graphs` package;
* the value sanitizer `valueSanitize` and the string helpers from the
  `neo4j` package;
* the JSON serialization of a `GraphDocument` (`ToJSON` / `FromJSON`),
  modelled at the level of the JSON syntax tree produced and consumed by
  Go s `encoding/json` for these struct types;
* the Neo4j-backed store operations (`AddNodes`, `AddRelationships`,
  `AddGraphDocument`, `RemoveRelationships`, `RefreshSchema`), modelled as
  functions over an explicit store state together with the documented
  semantics of the fixed Cypher query shapes the code emits.

Dynamic Go values (`interface\x7b\x7d` holding JSON-like data) are embedded as
the inductive type `Value` below.  Go conflates the untyped `nil` used by
`valueSanitize` to signal "absent" with the JSON `null` value; the embedding
keeps that identification: sanitization returns `Option Value` and the Go
`nil` scalar is `Value.vnull`, which sanitizes to `none`.
-/

set_option maxRecDepth 8192

/-- The maximum size of lists to include in results (`LIST_LIMIT` in
`neo4j.go`). -/
def LIST_LIMIT : Nat := 128

/-- Threshold for returning all vs sample values (`DISTINCT_VALUE_LIMIT`). -/
def DISTINCT_VALUE_LIMIT : Int := 10

/-- Dynamic JSON-like Go values (`interface\x7b\x7d`).  Numbers keep the Go
distinction between `int` and `float64` values; `vfloat` carries a rational
standing for the exact value of a Go `float64` (every `float64` is a dyadic
rational, and Go s JSON encoder prints a representation that parses back to
the same `float64`). -/
inductive Value where
  | vnull
  | vbool (b : Bool)
  | vint (n : Int)
  | vfloat (q : Rat)
  | vstr (s : String)
  | vlist (elems : List Value)
  | vmap (entries : List (String × Value))

mutual

/-- `valueSanitize` from the `neo4j` helper file: removes embedding-like
values and oversized lists.  `none` models the Go function returning `nil`
(its callers drop such results).  A map sanitizes every entry and keeps the
keys whose sanitized value is not absent; a list of length at least
`LIST_LIMIT` is dropped whole, a shorter list keeps its non-absent sanitized
elements in order.  A `nil` scalar (`vnull`) is returned as Go `nil`, which
the callers treat as absent; every other scalar is returned unchanged.
Note: in Go a short list whose elements all sanitize away is returned as a
nil slice boxed in a non-nil interface value, so the `sanitized != nil`
checks at the call sites keep it; the embedding accordingly returns
`some (vlist [])` in that case. -/
def valueSanitize : Value → Option Value
  | .vmap m => some (.vmap (sanitizeMapEntries m))
  | .vlist l =>
      if l.length ≥ LIST_LIMIT then none
      else some (.vlist (sanitizeListElems l))
  | .vnull => none
  | .vbool b => some (.vbool b)
  | .vint n => some (.vint n)
  | .vfloat q => some (.vfloat q)
  | .vstr s => some (.vstr s)

/-- The element loop of `valueSanitize` on a slice: sanitize each element,
dropping absent ones and preserving order. -/
def sanitizeListElems : List Value → List Value
  | [] => []
  | x :: xs =>
      match valueSanitize x with
      | some y => y :: sanitizeListElems xs
      | none => sanitizeListElems xs

/-- The entry loop of `valueSanitize` on a map: keep each key whose value
sanitizes to a non-absent result. -/
def sanitizeMapEntries : List (String × Value) → List (String × Value)
  | [] => []
  | (k, v) :: rest =>
      match valueSanitize v with
      | some w => (k, w) :: sanitizeMapEntries rest
      | none => sanitizeMapEntries rest

end

example : valueSanitize (.vint 3) = some (.vint 3) := rfl

example :
    valueSanitize (.vmap [("a", .vlist (List.replicate 128 (.vint 0))), ("b", .vstr "x")]) =
      some (.vmap [("b", .vstr "x")]) := rfl

example :
    valueSanitize (.vmap [("a", .vlist [.vnull]), ("b", .vnull)]) =
      some (.vmap [("a", .vlist [])]) := rfl

/-- The element loop is exactly an order-preserving `filterMap`. -/
theorem sanitizeListElems_eq_filterMap (l : List Value) :
    sanitizeListElems l = l.filterMap valueSanitize := by
  induction l with
  | nil => rfl
  | cons x xs ih =>
      simp only [sanitizeListElems, List.filterMap_cons]
      cases valueSanitize x <;> simp [ih]

/-- Sanitizing a list never makes it longer. -/
theorem sanitizeListElems_length_le (l : List Value) :
    (sanitizeListElems l).length ≤ l.length := by
  induction l with
  | nil => simp [sanitizeListElems]
  | cons x xs ih =>
      simp only [sanitizeListElems]
      cases valueSanitize x
      · exact Nat.le_succ_of_le ih
      · simpa using Nat.succ_le_succ ih

mutual

/-- Every value produced by `valueSanitize` is a fixed point of
`valueSanitize`. -/
theorem valueSanitize_fix : ∀ v w, valueSanitize v = some w → valueSanitize w = some w
  | .vnull, _, h => by simp [valueSanitize] at h
  | .vbool b, w, h => by
      simp only [valueSanitize, Option.some.injEq] at h
      subst h; rfl
  | .vint n, w, h => by
      simp only [valueSanitize, Option.some.injEq] at h
      subst h; rfl
  | .vfloat q, w, h => by
      simp only [valueSanitize, Option.some.injEq] at h
      subst h; rfl
  | .vstr s, w, h => by
      simp only [valueSanitize, Option.some.injEq] at h
      subst h; rfl
  | .vlist l, w, h => by
      by_cases hl : l.length ≥ LIST_LIMIT
      · simp [valueSanitize, hl] at h
      · have hw : w = .vlist (sanitizeListElems l) := by
          simp only [valueSanitize, if_neg hl, Option.some.injEq] at h
          exact h.symm
        subst hw
        have hlen : ¬ (sanitizeListElems l).length ≥ LIST_LIMIT := by
          have := sanitizeListElems_length_le l
          omega
        simp [valueSanitize, hlen, sanitizeListElems_fix l]
  | .vmap m, w, h => by
      have hw : w = .vmap (sanitizeMapEntries m) := by
        simp only [valueSanitize, Option.some.injEq] at h
        exact h.symm
      subst hw
      simp [valueSanitize, sanitizeMapEntries_fix m]

/-- Re-sanitizing an already sanitized element list changes nothing. -/
theorem sanitizeListElems_fix : ∀ l, sanitizeListElems (sanitizeListElems l) = sanitizeListElems l
  | [] => rfl
  | x :: xs => by
      cases h : valueSanitize x with
      | none => simp [sanitizeListElems, h, sanitizeListElems_fix xs]
      | some y =>
          have hy := valueSanitize_fix x y h
          simp [sanitizeListElems, h, hy, sanitizeListElems_fix xs]

/-- Re-sanitizing an already sanitized map changes nothing. -/
theorem sanitizeMapEntries_fix : ∀ m, sanitizeMapEntries (sanitizeMapEntries m) = sanitizeMapEntries m
  | [] => rfl
  | (k, v) :: rest => by
      cases h : valueSanitize v with
      | none => simp [sanitizeMapEntries, h, sanitizeMapEntries_fix rest]
      | some w =>
          have hw := valueSanitize_fix v w h
          simp [sanitizeMapEntries, h, hw, sanitizeMapEntries_fix rest]

end

mutual

/-- Does a value contain, anywhere in its nested structure, a sequence of
length at least `LIST_LIMIT`? -/
def hasOversizedSeq : Value → Bool
  | .vlist l => decide (l.length ≥ LIST_LIMIT) || hasOversizedSeqInList l
  | .vmap m => hasOversizedSeqInMap m
  | _ => false

def hasOversizedSeqInList : List Value → Bool
  | [] => false
  | x :: xs => hasOversizedSeq x || hasOversizedSeqInList xs

def hasOversizedSeqInMap : List (String × Value) → Bool
  | [] => false
  | (_, v) :: rest => hasOversizedSeq v || hasOversizedSeqInMap rest

end

mutual

/-- No output of `valueSanitize` contains an oversized sequence. -/
theorem valueSanitize_no_oversized :
    ∀ v w, valueSanitize v = some w → hasOversizedSeq w = false
  | .vnull, _, h => by simp [valueSanitize] at h
  | .vbool b, w, h => by
      simp only [valueSanitize, Option.some.injEq] at h
      subst h; rfl
  | .vint n, w, h => by
      simp only [valueSanitize, Option.some.injEq] at h
      subst h; rfl
  | .vfloat q, w, h => by
      simp only [valueSanitize, Option.some.injEq] at h
      subst h; rfl
  | .vstr s, w, h => by
      simp only [valueSanitize, Option.some.injEq] at h
      subst h; rfl
  | .vlist l, w, h => by
      by_cases hl : l.length ≥ LIST_LIMIT
      · simp [valueSanitize, hl] at h
      · have hw : w = .vlist (sanitizeListElems l) := by
          simp only [valueSanitize, if_neg hl, Option.some.injEq] at h
          exact h.symm
        subst hw
        have hlen : ¬ (sanitizeListElems l).length ≥ LIST_LIMIT := by
          have := sanitizeListElems_length_le l
          omega
        simp [hasOversizedSeq, hlen, sanitizeListElems_no_oversized l]
  | .vmap m, w, h => by
      have hw : w = .vmap (sanitizeMapEntries m) := by
        simp only [valueSanitize, Option.some.injEq] at h
        exact h.symm
      subst hw
      simp [hasOversizedSeq, sanitizeMapEntries_no_oversized m]

theorem sanitizeListElems_no_oversized :
    ∀ l, hasOversizedSeqInList (sanitizeListElems l) = false
  | [] => rfl
  | x :: xs => by
      cases h : valueSanitize x with
      | none => simp [sanitizeListElems, h, sanitizeListElems_no_oversized xs]
      | some y =>
          have hy := valueSanitize_no_oversized x y h
          simp [sanitizeListElems, h, hasOversizedSeqInList, hy,
            sanitizeListElems_no_oversized xs]

theorem sanitizeMapEntries_no_oversized :
    ∀ m, hasOversizedSeqInMap (sanitizeMapEntries m) = false
  | [] => rfl
  | (k, v) :: rest => by
      cases h : valueSanitize v with
      | none => simp [sanitizeMapEntries, h, sanitizeMapEntries_no_oversized rest]
      | some w =>
          have hw := valueSanitize_no_oversized v w h
          simp [sanitizeMapEntries, h, hasOversizedSeqInMap, hw,
            sanitizeMapEntries_no_oversized rest]

end

/-- A sanitized map keeps every entry whose value sanitizes to a non-absent
result, with the sanitized value. -/
theorem mem_sanitizeMapEntries_of_mem :
    ∀ (m : List (String × Value)) (k : String) (v w : Value),
      (k, v) ∈ m → valueSanitize v = some w → (k, w) ∈ sanitizeMapEntries m
  | [], _, _, _, hmem, _ => absurd hmem (List.not_mem_nil _)
  | (k0, v0) :: rest, k, v, w, hmem, hs => by
      rcases List.mem_cons.mp hmem with heq | htail
      · obtain ⟨hk, hv⟩ := Prod.mk.injEq .. ▸ heq
        subst hk; subst hv
        simp [sanitizeMapEntries, hs]
      · have ih := mem_sanitizeMapEntries_of_mem rest k v w htail hs
        cases h0 : valueSanitize v0 <;>
          simp [sanitizeMapEntries, h0, ih, List.mem_cons, or_true]

/-- C3.  Every sequence of length at least `LIST_LIMIT` occurring anywhere in
the input is entirely absent from the output of `valueSanitize` (the output
contains no oversized sequence at all), and a sequence of length below
`LIST_LIMIT` appears in the output with exactly its non-absent sanitized
elements, in their original order (`List.filterMap`). -/
theorem valueSanitize_drops_oversized_keeps_short :
    (∀ v w, valueSanitize v = some w → hasOversizedSeq w = false)
    ∧ (∀ l : List Value, l.length < LIST_LIMIT →
        valueSanitize (.vlist l) = some (.vlist (l.filterMap valueSanitize))) := by
  refine ⟨valueSanitize_no_oversized, fun l hl => ?_⟩
  have hge : ¬ l.length ≥ LIST_LIMIT := by omega
  simp [valueSanitize, hge, sanitizeListElems_eq_filterMap]

/-- Witness for C3 at concrete inputs: an input holding a 128-element vector
sanitizes to an output with no oversized sequence, and a short list keeps its
non-absent elements in order. -/
theorem valueSanitize_drops_oversized_keeps_short_witness :
    hasOversizedSeq (.vmap [("b", .vstr "x")]) = false
    ∧ valueSanitize (.vlist [.vint 1, .vnull, .vint 2]) =
        some (.vlist ([Value.vint 1, .vnull, .vint 2].filterMap valueSanitize)) := by
  constructor
  · exact valueSanitize_drops_oversized_keeps_short.1
      (.vmap [("a", .vlist (List.replicate 128 (.vint 0))), ("b", .vstr "x")]) _ rfl
  · exact valueSanitize_drops_oversized_keeps_short.2 [.vint 1, .vnull, .vint 2] (by decide)

/-- C4.  `valueSanitize` is idempotent: sanitizing a sanitized result changes
nothing.  `Option.bind` composes the two applications the way the Go code
would (Go returns `nil` for an absent result, and `valueSanitize(nil)` is
again `nil`). -/
theorem valueSanitize_idempotent (v : Value) :
    (valueSanitize v).bind valueSanitize = valueSanitize v := by
  cases h : valueSanitize v with
  | none => rfl
  | some w => simpa [h] using valueSanitize_fix v w h

/-- C10.  A sequence shorter than `LIST_LIMIT` is never reported absent
because of its contents: it always sanitizes to `some` list; if all its
elements are absent it is retained as the empty sequence; and a map entry
holding such a sequence is kept in the sanitized map. -/
theorem valueSanitize_retains_short_lists (l : List Value)
    (m : List (String × Value)) (k : String)
    (hlen : l.length < LIST_LIMIT) (hmem : (k, Value.vlist l) ∈ m) :
    (∃ w, valueSanitize (.vlist l) = some w)
    ∧ ((∀ x ∈ l, valueSanitize x = none) →
        valueSanitize (.vlist l) = some (.vlist []))
    ∧ (k, Value.vlist (sanitizeListElems l)) ∈ sanitizeMapEntries m := by
  have hge : ¬ l.length ≥ LIST_LIMIT := by omega
  have hsan : valueSanitize (.vlist l) = some (.vlist (sanitizeListElems l)) := by
    simp [valueSanitize, hge]
  refine ⟨⟨_, hsan⟩, fun hall => ?_, mem_sanitizeMapEntries_of_mem m k _ _ hmem hsan⟩
  have : sanitizeListElems l = [] := by
    rw [sanitizeListElems_eq_filterMap]
    exact List.filterMap_eq_nil_iff.mpr hall
  rw [hsan, this]

/-- Witness for C10: the singleton list `[null]` (all of whose elements are
absent) is retained as an empty sequence, and its map key survives. -/
theorem valueSanitize_retains_short_lists_witness :
    (∃ w, valueSanitize (.vlist [.vnull]) = some w)
    ∧ ((∀ x ∈ [Value.vnull], valueSanitize x = none) →
        valueSanitize (.vlist [.vnull]) = some (.vlist []))
    ∧ ("a", Value.vlist (sanitizeListElems [.vnull])) ∈
        sanitizeMapEntries [("a", Value.vlist [.vnull])] :=
  valueSanitize_retains_short_lists [.vnull] [("a", .vlist [.vnull])] "a"
    (by decide) (List.Mem.head _)

/-!
## Entity model (`graphs` package)

`Node`, `Relationship` and `GraphDocument` from the entity-model source file.
Go property bags (`map[string]interface\x7b\x7d`) are embedded as association
lists with the keys understood to be unique; the Go field `Type` is renamed
`Typ` because `Type` is reserved in Lean.
-/

structure Node where
  ID : String
  Typ : String
  Properties : List (String × Value)

structure Relationship where
  Source : Node
  Target : Node
  Typ : String
  Properties : List (String × Value)

/-- `schema.Document` from langchaingo (the provenance record): page content,
metadata and a score (a `float32` in Go, embedded as a rational). -/
structure Document where
  PageContent : String
  Metadata : List (String × Value)
  Score : Rat

structure GraphDocument where
  Nodes : List Node
  Relationships : List Relationship
  Source : Document

/-- `AddNode` appends without deduplication. -/
def GraphDocument.AddNode (gd : GraphDocument) (node : Node) : GraphDocument :=
  { gd with Nodes := gd.Nodes ++ [node] }

/-- `AddRelationship` appends without deduplication. -/
def GraphDocument.AddRelationship (gd : GraphDocument) (rel : Relationship) : GraphDocument :=
  { gd with Relationships := gd.Relationships ++ [rel] }

/-- The node-removal loop of `GraphDocument.RemoveNode`: delete the first
node whose ID matches, returning `none` when no node matches. -/
def removeFirstNodeByID : List Node → String → Option (List Node)
  | [], _ => none
  | node :: rest, nodeID =>
      if node.ID = nodeID then some rest
      else (removeFirstNodeByID rest nodeID).map (node :: ·)

/-- `removeRelationshipsByNodeID`: drop every relationship whose source or
target carries the given ID. -/
def GraphDocument.removeRelationshipsByNodeID (gd : GraphDocument) (nodeID : String) :
    GraphDocument :=
  { gd with
    Relationships :=
      gd.Relationships.filter
        (fun rel => rel.Source.ID != nodeID && rel.Target.ID != nodeID) }

/-- `RemoveNode`: remove the first node with the given ID and, on success,
cascade-remove every relationship touching that ID; the boolean reports
whether a node was removed. -/
def GraphDocument.RemoveNode (gd : GraphDocument) (nodeID : String) :
    GraphDocument × Bool :=
  match removeFirstNodeByID gd.Nodes nodeID with
  | some nodes =>
      (GraphDocument.removeRelationshipsByNodeID { gd with Nodes := nodes } nodeID, true)
  | none => (gd, false)

/-- `FindNode`: first node with the given ID. -/
def GraphDocument.FindNode (gd : GraphDocument) (nodeID : String) : Option Node :=
  gd.Nodes.find? (fun node => node.ID == nodeID)

/-- `NodeExists`. -/
def GraphDocument.NodeExists (gd : GraphDocument) (nodeID : String) : Bool :=
  (gd.FindNode nodeID).isSome

/-- `FindRelationship`: first relationship with the given identity triple. -/
def GraphDocument.FindRelationship (gd : GraphDocument)
    (sourceID targetID relType : String) : Option Relationship :=
  gd.Relationships.find?
    (fun rel => rel.Source.ID == sourceID && rel.Target.ID == targetID && rel.Typ == relType)

/-- `RelationshipExists`. -/
def GraphDocument.RelationshipExists (gd : GraphDocument)
    (sourceID targetID relType : String) : Bool :=
  (gd.FindRelationship sourceID targetID relType).isSome

/-- `Merge`: append the nodes of the incoming document whose ID is not
already present, then the relationships whose identity triple is not already
present.  Both existence checks run against the receiver as it grows. -/
def GraphDocument.Merge (gd other : GraphDocument) : GraphDocument :=
  let afterNodes :=
    other.Nodes.foldl
      (fun acc node => if acc.NodeExists node.ID then acc else acc.AddNode node) gd
  other.Relationships.foldl
    (fun acc rel =>
      if acc.RelationshipExists rel.Source.ID rel.Target.ID rel.Typ then acc
      else acc.AddRelationship rel) afterNodes

/-- With pairwise-distinct node IDs, removing the first match removes every
match: the loop returns the matchless filter of the node list. -/
theorem removeFirstNodeByID_eq_filter :
    ∀ (l : List Node) (n : Node), (l.map Node.ID).Nodup → n ∈ l →
      removeFirstNodeByID l n.ID = some (l.filter (fun m => m.ID != n.ID))
  | [], n, _, hmem => absurd hmem (List.not_mem_nil n)
  | h :: t, n, hnodup, hmem => by
      rw [List.map_cons, List.nodup_cons] at hnodup
      obtain ⟨hnotin, hnodt⟩ := hnodup
      by_cases hid : h.ID = n.ID
      · have hfilter : t.filter (fun m => m.ID != n.ID) = t := by
          apply List.filter_eq_self.mpr
          intro m hm
          have hne : m.ID ≠ h.ID := fun he => hnotin (he ▸ List.mem_map_of_mem Node.ID hm)
          simpa [bne_iff_ne, ← hid] using hne
        simp [removeFirstNodeByID, hid, hfilter]
      · have hnt : n ∈ t := by
          rcases List.mem_cons.mp hmem with rfl | ht
          · exact absurd rfl hid
          · exact ht
        have ih := removeFirstNodeByID_eq_filter t n hnodt hnt
        simp [removeFirstNodeByID, hid, ih, List.filter_cons,
          show (h.ID != n.ID) = true by simpa using hid]

/-- C1.  On a document whose nodes carry pairwise-distinct IDs and that
contains the node `n`, `RemoveNode n.ID` reports `true`, leaves exactly the
nodes whose ID differs from `n.ID` (all retained, in order), and leaves
exactly the relationships referencing neither `n.ID` as source nor as target
(all others retained, in order); in particular no node or relationship in
the result references `n.ID`. -/
theorem RemoveNode_removes_node_and_cascades (gd : GraphDocument) (n : Node)
    (hnodup : (gd.Nodes.map Node.ID).Nodup) (hmem : n ∈ gd.Nodes) :
    (gd.RemoveNode n.ID).2 = true
    ∧ (gd.RemoveNode n.ID).1.Nodes = gd.Nodes.filter (fun m => m.ID != n.ID)
    ∧ (gd.RemoveNode n.ID).1.Relationships =
        gd.Relationships.filter (fun r => r.Source.ID != n.ID && r.Target.ID != n.ID)
    ∧ (∀ m ∈ (gd.RemoveNode n.ID).1.Nodes, m.ID ≠ n.ID)
    ∧ (∀ r ∈ (gd.RemoveNode n.ID).1.Relationships,
        r.Source.ID ≠ n.ID ∧ r.Target.ID ≠ n.ID) := by
  have hrm := removeFirstNodeByID_eq_filter gd.Nodes n hnodup hmem
  have hdef : gd.RemoveNode n.ID =
      (⟨gd.Nodes.filter (fun m => m.ID != n.ID),
        gd.Relationships.filter (fun r => r.Source.ID != n.ID && r.Target.ID != n.ID),
        gd.Source⟩, true) := by
    simp [GraphDocument.RemoveNode, hrm, GraphDocument.removeRelationshipsByNodeID]
  rw [hdef]
  refine ⟨rfl, rfl, rfl, ?_, ?_⟩
  · intro m hm
    have hb := (List.mem_filter.mp hm).2
    simpa [bne_iff_ne] using hb
  · intro r hr
    have hb := (List.mem_filter.mp hr).2
    rw [Bool.and_eq_true, bne_iff_ne, bne_iff_ne] at hb
    exact hb

/-- Concrete two-node document used by the C1 witness. -/
def sampleDocC1 : GraphDocument :=
  { Nodes := [⟨"1", "Person", []⟩, ⟨"2", "Person", []⟩],
    Relationships := [⟨⟨"1", "Person", []⟩, ⟨"2", "Person", []⟩, "KNOWS", []⟩],
    Source := ⟨"doc", [], 0⟩ }

/-- Witness for C1 at a concrete document: removing node `1` succeeds,
filters the node list and cascades onto the relationship touching it. -/
theorem RemoveNode_removes_node_and_cascades_witness :
    (sampleDocC1.RemoveNode "1").2 = true
    ∧ (sampleDocC1.RemoveNode "1").1.Nodes =
        sampleDocC1.Nodes.filter (fun m => m.ID != "1")
    ∧ (sampleDocC1.RemoveNode "1").1.Relationships =
        sampleDocC1.Relationships.filter
          (fun r => r.Source.ID != "1" && r.Target.ID != "1") := by
  have h := RemoveNode_removes_node_and_cascades sampleDocC1 ⟨"1", "Person", []⟩
    (by decide) (List.Mem.head _)
  exact ⟨h.1, h.2.1, h.2.2.1⟩

/-- Node existence is a Boolean `any` over the node list. -/
theorem NodeExists_eq_any (gd : GraphDocument) (nodeID : String) :
    gd.NodeExists nodeID = gd.Nodes.any (fun node => node.ID == nodeID) := by
  simp only [GraphDocument.NodeExists, GraphDocument.FindNode]
  rw [Bool.eq_iff_iff, List.find?_isSome, List.any_eq_true]

/-- Relationship existence is a Boolean `any` over the relationship list. -/
theorem RelationshipExists_eq_any (gd : GraphDocument) (s t ty : String) :
    gd.RelationshipExists s t ty =
      gd.Relationships.any
        (fun rel => rel.Source.ID == s && rel.Target.ID == t && rel.Typ == ty) := by
  simp only [GraphDocument.RelationshipExists, GraphDocument.FindRelationship]
  rw [Bool.eq_iff_iff, List.find?_isSome, List.any_eq_true]

/-- Appending one node extends the existence check by exactly that node. -/
theorem NodeExists_AddNode (gd : GraphDocument) (x : Node) (nodeID : String) :
    (gd.AddNode x).NodeExists nodeID = (gd.NodeExists nodeID || (x.ID == nodeID)) := by
  simp [NodeExists_eq_any, GraphDocument.AddNode, List.any_append]

/-- Appending one relationship extends the existence check by exactly it. -/
theorem RelationshipExists_AddRelationship (gd : GraphDocument) (x : Relationship)
    (s t ty : String) :
    (gd.AddRelationship x).RelationshipExists s t ty =
      (gd.RelationshipExists s t ty ||
        (x.Source.ID == s && x.Target.ID == t && x.Typ == ty)) := by
  simp [RelationshipExists_eq_any, GraphDocument.AddRelationship, List.any_append]

/-- The identity triple of a relationship (`RelationshipIdentifier`). -/
def relKey (rel : Relationship) : String × String × String :=
  (rel.Source.ID, rel.Target.ID, rel.Typ)

/-- The node loop of `Merge`: when the incoming nodes carry pairwise-distinct
IDs, it appends exactly the incoming nodes absent from the receiver. -/
theorem merge_node_fold :
    ∀ (ns : List Node) (gd : GraphDocument), (ns.map Node.ID).Nodup →
      ns.foldl (fun acc node => if acc.NodeExists node.ID then acc else acc.AddNode node) gd =
        { gd with Nodes := gd.Nodes ++ ns.filter (fun node => !gd.NodeExists node.ID) }
  | [], gd, _ => by simp
  | x :: rest, gd, hnodup => by
      rw [List.map_cons, List.nodup_cons] at hnodup
      obtain ⟨hx, hrest⟩ := hnodup
      by_cases hex : gd.NodeExists x.ID
      · rw [List.foldl_cons, if_pos hex, merge_node_fold rest gd hrest]
        simp [List.filter_cons, hex]
      · rw [List.foldl_cons, if_neg hex, merge_node_fold rest (gd.AddNode x) hrest]
        have hfilter : rest.filter (fun node => !(gd.AddNode x).NodeExists node.ID)
            = rest.filter (fun node => !gd.NodeExists node.ID) := by
          apply List.filter_congr
          intro node hn
          have hne : x.ID ≠ node.ID := fun he => hx (he ▸ List.mem_map_of_mem Node.ID hn)
          rw [NodeExists_AddNode]
          simp [hne]
        rw [hfilter]
        simp [GraphDocument.AddNode, List.filter_cons, hex, List.append_assoc]

/-- The relationship loop of `Merge`: when the incoming relationships carry
pairwise-distinct identity triples, it appends exactly the incoming
relationships whose identity is absent from the receiver. -/
theorem merge_rel_fold :
    ∀ (rs : List Relationship) (gd : GraphDocument), (rs.map relKey).Nodup →
      rs.foldl
          (fun acc rel =>
            if acc.RelationshipExists rel.Source.ID rel.Target.ID rel.Typ then acc
            else acc.AddRelationship rel) gd =
        { gd with
          Relationships :=
            gd.Relationships ++ rs.filter
              (fun rel => !gd.RelationshipExists rel.Source.ID rel.Target.ID rel.Typ) }
  | [], gd, _ => by simp
  | x :: rest, gd, hnodup => by
      rw [List.map_cons, List.nodup_cons] at hnodup
      obtain ⟨hx, hrest⟩ := hnodup
      by_cases hex : gd.RelationshipExists x.Source.ID x.Target.ID x.Typ
      · rw [List.foldl_cons, if_pos hex, merge_rel_fold rest gd hrest]
        simp [List.filter_cons, hex]
      · rw [List.foldl_cons, if_neg hex, merge_rel_fold rest (gd.AddRelationship x) hrest]
        have hfilter :
            rest.filter
                (fun rel => !(gd.AddRelationship x).RelationshipExists
                  rel.Source.ID rel.Target.ID rel.Typ)
              = rest.filter
                  (fun rel => !gd.RelationshipExists rel.Source.ID rel.Target.ID rel.Typ) := by
          apply List.filter_congr
          intro rel hn
          have hne : relKey x ≠ relKey rel :=
            fun he => hx (he ▸ List.mem_map_of_mem relKey hn)
          have hkeyeq :
              (x.Source.ID == rel.Source.ID && x.Target.ID == rel.Target.ID
                && x.Typ == rel.Typ) = false := by
            by_contra hc
            rw [Bool.not_eq_false, Bool.and_eq_true, Bool.and_eq_true] at hc
            obtain ⟨⟨h1, h2⟩, h3⟩ := hc
            rw [beq_iff_eq] at h1 h2 h3
            exact hne (by simp [relKey, h1, h2, h3])
          rw [RelationshipExists_AddRelationship, hkeyeq, Bool.or_false]
        rw [hfilter]
        simp [GraphDocument.AddRelationship, List.filter_cons, hex, List.append_assoc]

/-- The empty receiver document used by the C6 counterexample. -/
def emptyDocC6 : GraphDocument := ⟨[], [], ⟨"", [], 0⟩⟩

/-- An incoming document holding two distinct nodes with the same ID. -/
def dupDocC6 : GraphDocument :=
  ⟨[⟨"1", "Person", []⟩, ⟨"1", "Person", [("name", .vstr "Alice")]⟩], [], ⟨"", [], 0⟩⟩

/-- Counterexample to C6 as stated: when the incoming document itself holds
two nodes with the same ID, `Merge` does not append every incoming node
whose identity is absent from the receiver — the second duplicate is skipped
because the existence check runs against the receiver as it grows.  Here the
receiver is empty, both incoming nodes pass the stated filter, yet only one
is appended. -/
theorem Merge_counterexample :
    (emptyDocC6.Merge dupDocC6).Nodes ≠
      emptyDocC6.Nodes ++ dupDocC6.Nodes.filter (fun node => !emptyDocC6.NodeExists node.ID) := by
  intro h
  have h1 : (emptyDocC6.Merge dupDocC6).Nodes.length = 1 := rfl
  have h2 : (emptyDocC6.Nodes ++ dupDocC6.Nodes.filter
      (fun node => !emptyDocC6.NodeExists node.ID)).length = 2 := rfl
  rw [h, h2] at h1
  exact absurd h1 (by decide)

/-- C6, amended.  `Merge` never alters the receiver's existing entries
(they form an unchanged prefix and their properties are untouched), and it
appends from the incoming document the first occurrence of each identity not
already present in the receiver; when the incoming document's nodes are
unique by ID and its relationships unique by identity triple — the
documented invariant for documents — this is exactly the set of incoming
entries whose identity is absent from the receiver. -/
theorem Merge_appends_new_identities (gd other : GraphDocument)
    (hn : (other.Nodes.map Node.ID).Nodup)
    (hr : (other.Relationships.map relKey).Nodup) :
    (gd.Merge other).Nodes =
        gd.Nodes ++ other.Nodes.filter (fun node => !gd.NodeExists node.ID)
    ∧ (gd.Merge other).Relationships =
        gd.Relationships ++ other.Relationships.filter
          (fun rel => !gd.RelationshipExists rel.Source.ID rel.Target.ID rel.Typ)
    ∧ (gd.Merge other).Source = gd.Source := by
  unfold GraphDocument.Merge
  rw [merge_node_fold other.Nodes gd hn,
    merge_rel_fold other.Relationships _ hr]
  exact ⟨rfl, rfl, rfl⟩

/-- Receiver document for the C6 witness: one node with one property and one
relationship. -/
def recvDocC6 : GraphDocument :=
  ⟨[⟨"1", "Person", [("a", .vint 1)]⟩],
   [⟨⟨"1", "Person", []⟩, ⟨"1", "Person", []⟩, "SELF", []⟩],
   ⟨"recv", [], 0⟩⟩

/-- Incoming document for the C6 witness: a node duplicating ID `1` with
different properties, a fresh node `2`, and a fresh relationship. -/
def incomingDocC6 : GraphDocument :=
  ⟨[⟨"1", "Person", [("b", .vint 2)]⟩, ⟨"2", "Person", []⟩],
   [⟨⟨"1", "Person", []⟩, ⟨"2", "Person", []⟩, "KNOWS", []⟩],
   ⟨"inc", [], 0⟩⟩

/-- Witness for the amended C6 at concrete documents. -/
theorem Merge_appends_new_identities_witness :
    (recvDocC6.Merge incomingDocC6).Nodes =
        recvDocC6.Nodes ++ incomingDocC6.Nodes.filter
          (fun node => !recvDocC6.NodeExists node.ID)
    ∧ (recvDocC6.Merge incomingDocC6).Relationships =
        recvDocC6.Relationships ++ incomingDocC6.Relationships.filter
          (fun rel => !recvDocC6.RelationshipExists rel.Source.ID rel.Target.ID rel.Typ)
    ∧ (recvDocC6.Merge incomingDocC6).Source = recvDocC6.Source :=
  Merge_appends_new_identities recvDocC6 incomingDocC6 (by decide) (by decide)

/-!
## JSON serialization (`ToJSON` / `FromJSON`)

`ToJSON` is `json.Marshal` of a `GraphDocument` and `FromJSON` is
`json.Unmarshal`.  Both are modelled on the JSON syntax tree: the Go encoder
emits the textual rendering of the tree built below (struct fields in
declaration order, under their `json:` tags), and the decoder parses that
text back to the same tree — Go prints a `float64` with enough digits to
parse back to the same value and prints an `int` exactly.  Decoding a
property value into `interface\x7b\x7d` follows `encoding/json`: every JSON
number becomes a `float64` (`vfloat`), which is where exactness of the round
trip breaks for `int`-valued properties.
-/

inductive Json where
  | jnull
  | jbool (b : Bool)
  | jnum (q : Rat)
  | jstr (s : String)
  | jarr (elems : List Json)
  | jobj (fields : List (String × Json))

mutual

/-- `json.Marshal` of a dynamic value. -/
def encodeValue : Value → Json
  | .vnull => .jnull
  | .vbool b => .jbool b
  | .vint n => .jnum n
  | .vfloat q => .jnum q
  | .vstr s => .jstr s
  | .vlist l => .jarr (encodeValueList l)
  | .vmap m => .jobj (encodeValueMap m)

def encodeValueList : List Value → List Json
  | [] => []
  | x :: xs => encodeValue x :: encodeValueList xs

def encodeValueMap : List (String × Value) → List (String × Json)
  | [] => []
  | (k, v) :: rest => (k, encodeValue v) :: encodeValueMap rest

end

mutual

/-- `json.Unmarshal` of a JSON value into `interface\x7b\x7d`: numbers always
decode as `float64`. -/
def decodeValue : Json → Value
  | .jnull => .vnull
  | .jbool b => .vbool b
  | .jnum q => .vfloat q
  | .jstr s => .vstr s
  | .jarr l => .vlist (decodeValueList l)
  | .jobj fields => .vmap (decodeValueMap fields)

def decodeValueList : List Json → List Value
  | [] => []
  | j :: rest => decodeValue j :: decodeValueList rest

def decodeValueMap : List (String × Json) → List (String × Value)
  | [] => []
  | (k, j) :: rest => (k, decodeValue j) :: decodeValueMap rest

end

/-- Marshalling a `Node` (tags `id`, `type`, `properties`). -/
def encodeNode (node : Node) : Json :=
  .jobj [("id", .jstr node.ID), ("type", .jstr node.Typ),
         ("properties", .jobj (encodeValueMap node.Properties))]

/-- Marshalling a `Relationship` (tags `source`, `target`, `type`,
`properties`). -/
def encodeRelationship (rel : Relationship) : Json :=
  .jobj [("source", encodeNode rel.Source), ("target", encodeNode rel.Target),
         ("type", .jstr rel.Typ), ("properties", .jobj (encodeValueMap rel.Properties))]

/-- Marshalling the provenance `schema.Document`. -/
def encodeDocument (doc : Document) : Json :=
  .jobj [("page_content", .jstr doc.PageContent),
         ("metadata", .jobj (encodeValueMap doc.Metadata)),
         ("score", .jnum doc.Score)]

/-- `GraphDocument.ToJSON` = `json.Marshal(gd)` (tags `nodes`,
`relationships`, `source`), as a JSON tree. -/
def GraphDocument.ToJSON (gd : GraphDocument) : Json :=
  .jobj [("nodes", .jarr (gd.Nodes.map encodeNode)),
         ("relationships", .jarr (gd.Relationships.map encodeRelationship)),
         ("source", encodeDocument gd.Source)]

/-- Object-field lookup used by struct unmarshalling. -/
def jlookup (fields : List (String × Json)) (key : String) : Option Json :=
  (fields.find? (fun field => field.1 == key)).map Prod.snd

/-- Unmarshal a JSON value into a `string` field: an absent key or JSON
`null` leaves the zero value, a string sets it, anything else is an
unmarshal error. -/
def decodeStrField : Option Json → Option String
  | none => some ""
  | some .jnull => some ""
  | some (.jstr s) => some s
  | some _ => none

/-- Unmarshal into a `float` field. -/
def decodeNumField : Option Json → Option Rat
  | none => some 0
  | some .jnull => some 0
  | some (.jnum q) => some q
  | some _ => none

/-- Unmarshal into a `map[string]interface\x7b\x7d` field (a `nil` map for an
absent key or `null`). -/
def decodePropsField : Option Json → Option (List (String × Value))
  | none => some []
  | some .jnull => some []
  | some (.jobj fields) => some (decodeValueMap fields)
  | some _ => none

/-- Unmarshal a `Node` (JSON `null` leaves the zero struct). -/
def decodeNode : Json → Option Node
  | .jnull => some ⟨"", "", []⟩
  | .jobj fields =>
      match decodeStrField (jlookup fields "id"),
          decodeStrField (jlookup fields "type"),
          decodePropsField (jlookup fields "properties") with
      | some id, some ty, some props => some ⟨id, ty, props⟩
      | _, _, _ => none
  | _ => none

/-- Unmarshal an optional `Node`-typed field (absent key: zero struct). -/
def decodeNodeField : Option Json → Option Node
  | none => some ⟨"", "", []⟩
  | some j => decodeNode j

/-- Unmarshal a `Relationship`. -/
def decodeRelationship : Json → Option Relationship
  | .jnull => some ⟨⟨"", "", []⟩, ⟨"", "", []⟩, "", []⟩
  | .jobj fields =>
      match decodeNodeField (jlookup fields "source"),
          decodeNodeField (jlookup fields "target"),
          decodeStrField (jlookup fields "type"),
          decodePropsField (jlookup fields "properties") with
      | some src, some tgt, some ty, some props => some ⟨src, tgt, ty, props⟩
      | _, _, _, _ => none
  | _ => none

/-- Unmarshal the `nodes` slice (absent key or `null`: nil slice). -/
def decodeNodes : Option Json → Option (List Node)
  | none => some []
  | some .jnull => some []
  | some (.jarr elems) => decodeNodeList elems
  | some _ => none
where
  decodeNodeList : List Json → Option (List Node)
    | [] => some []
    | j :: rest =>
        match decodeNode j, decodeNodeList rest with
        | some node, some others => some (node :: others)
        | _, _ => none

/-- Unmarshal the `relationships` slice. -/
def decodeRelationships : Option Json → Option (List Relationship)
  | none => some []
  | some .jnull => some []
  | some (.jarr elems) => decodeRelationshipList elems
  | some _ => none
where
  decodeRelationshipList : List Json → Option (List Relationship)
    | [] => some []
    | j :: rest =>
        match decodeRelationship j, decodeRelationshipList rest with
        | some rel, some others => some (rel :: others)
        | _, _ => none

/-- Unmarshal the provenance `schema.Document`. -/
def decodeDocument : Option Json → Option Document
  | none => some ⟨"", [], 0⟩
  | some .jnull => some ⟨"", [], 0⟩
  | some (.jobj fields) =>
      match decodeStrField (jlookup fields "page_content"),
          decodePropsField (jlookup fields "metadata"),
          decodeNumField (jlookup fields "score") with
      | some pc, some md, some sc => some ⟨pc, md, sc⟩
      | _, _, _ => none
  | some _ => none

/-- `FromJSON`: `json.Unmarshal` into a `GraphDocument`, failing on any
field of the wrong JSON type. -/
def FromJSON : Json → Option GraphDocument
  | .jobj fields =>
      match decodeNodes (jlookup fields "nodes"),
          decodeRelationships (jlookup fields "relationships"),
          decodeDocument (jlookup fields "source") with
      | some ns, some rs, some src => some ⟨ns, rs, src⟩
      | _, _, _ => none
  | .jnull => some ⟨[], [], ⟨"", [], 0⟩⟩
  | _ => none

mutual

/-- The numeric coercion `json.Unmarshal` applies to dynamic values: every
`int` comes back as the `float64` of the same magnitude; everything else is
preserved. -/
def coerceValue : Value → Value
  | .vint n => .vfloat n
  | .vlist l => .vlist (coerceValueList l)
  | .vmap m => .vmap (coerceValueMap m)
  | v => v

def coerceValueList : List Value → List Value
  | [] => []
  | x :: xs => coerceValue x :: coerceValueList xs

def coerceValueMap : List (String × Value) → List (String × Value)
  | [] => []
  | (k, v) :: rest => (k, coerceValue v) :: coerceValueMap rest

end

mutual

/-- Does a dynamic value contain no `int` anywhere (so that the decoder's
numeric coercion is the identity on it)? -/
def noVint : Value → Bool
  | .vint _ => false
  | .vlist l => noVintList l
  | .vmap m => noVintMap m
  | _ => true

def noVintList : List Value → Bool
  | [] => true
  | x :: xs => noVint x && noVintList xs

def noVintMap : List (String × Value) → Bool
  | [] => true
  | (_, v) :: rest => noVint v && noVintMap rest

end

def coerceNode (node : Node) : Node :=
  ⟨node.ID, node.Typ, coerceValueMap node.Properties⟩

def coerceRelationship (rel : Relationship) : Relationship :=
  ⟨coerceNode rel.Source, coerceNode rel.Target, rel.Typ, coerceValueMap rel.Properties⟩

def coerceDocument (doc : Document) : Document :=
  ⟨doc.PageContent, coerceValueMap doc.Metadata, doc.Score⟩

def coerceGraphDocument (gd : GraphDocument) : GraphDocument :=
  ⟨gd.Nodes.map coerceNode, gd.Relationships.map coerceRelationship,
   coerceDocument gd.Source⟩

/-- A graph document contains no `int`-typed property or metadata value. -/
def gdNoVint (gd : GraphDocument) : Bool :=
  gd.Nodes.all (fun node => noVintMap node.Properties)
    && gd.Relationships.all
        (fun rel => noVintMap rel.Source.Properties && noVintMap rel.Target.Properties
          && noVintMap rel.Properties)
    && noVintMap gd.Source.Metadata

mutual

/-- Decoding an encoded dynamic value applies exactly the numeric
coercion. -/
theorem decode_encode_value : ∀ v, decodeValue (encodeValue v) = coerceValue v
  | .vnull => rfl
  | .vbool b => rfl
  | .vint n => rfl
  | .vfloat q => rfl
  | .vstr s => rfl
  | .vlist l => by
      simp [encodeValue, decodeValue, coerceValue, decode_encode_value_list l]
  | .vmap m => by
      simp [encodeValue, decodeValue, coerceValue, decode_encode_value_map m]

theorem decode_encode_value_list :
    ∀ l, decodeValueList (encodeValueList l) = coerceValueList l
  | [] => rfl
  | x :: xs => by
      simp [encodeValueList, decodeValueList, coerceValueList,
        decode_encode_value x, decode_encode_value_list xs]

theorem decode_encode_value_map :
    ∀ m, decodeValueMap (encodeValueMap m) = coerceValueMap m
  | [] => rfl
  | (k, v) :: rest => by
      simp [encodeValueMap, decodeValueMap, coerceValueMap,
        decode_encode_value v, decode_encode_value_map rest]

end

mutual

/-- On `int`-free values the numeric coercion is the identity. -/
theorem coerce_id_of_noVint : ∀ v, noVint v = true → coerceValue v = v
  | .vnull, _ => rfl
  | .vbool b, _ => rfl
  | .vint n, h => by simp [noVint] at h
  | .vfloat q, _ => rfl
  | .vstr s, _ => rfl
  | .vlist l, h => by
      simp only [coerceValue, Value.vlist.injEq]
      exact coerce_id_of_noVint_list l (by simpa [noVint] using h)
  | .vmap m, h => by
      simp only [coerceValue, Value.vmap.injEq]
      exact coerce_id_of_noVint_map m (by simpa [noVint] using h)

theorem coerce_id_of_noVint_list : ∀ l, noVintList l = true → coerceValueList l = l
  | [], _ => rfl
  | x :: xs, h => by
      rw [noVintList, Bool.and_eq_true] at h
      simp [coerceValueList, coerce_id_of_noVint x h.1, coerce_id_of_noVint_list xs h.2]

theorem coerce_id_of_noVint_map : ∀ m, noVintMap m = true → coerceValueMap m = m
  | [], _ => rfl
  | (k, v) :: rest, h => by
      rw [noVintMap, Bool.and_eq_true] at h
      simp [coerceValueMap, coerce_id_of_noVint v h.1, coerce_id_of_noVint_map rest h.2]

end

/-- Decoding an encoded node yields the coerced node. -/
theorem decode_encode_node (node : Node) :
    decodeNode (encodeNode node) = some (coerceNode node) := by
  simp [encodeNode, decodeNode, jlookup, decodeStrField, decodePropsField,
    decode_encode_value_map, coerceNode]

/-- Decoding an encoded relationship yields the coerced relationship. -/
theorem decode_encode_relationship (rel : Relationship) :
    decodeRelationship (encodeRelationship rel) = some (coerceRelationship rel) := by
  simp [encodeRelationship, decodeRelationship, jlookup, decodeStrField,
    decodePropsField, decodeNodeField, decode_encode_node,
    decode_encode_value_map, coerceRelationship]

theorem decode_encode_nodes (ns : List Node) :
    decodeNodes.decodeNodeList (ns.map encodeNode) = some (ns.map coerceNode) := by
  induction ns with
  | nil => rfl
  | cons n rest ih =>
      simp [decodeNodes.decodeNodeList, decode_encode_node, ih]

theorem decode_encode_relationships (rs : List Relationship) :
    decodeRelationships.decodeRelationshipList (rs.map encodeRelationship) =
      some (rs.map coerceRelationship) := by
  induction rs with
  | nil => rfl
  | cons r rest ih =>
      simp [decodeRelationships.decodeRelationshipList, decode_encode_relationship, ih]

theorem decode_encode_document (doc : Document) :
    decodeDocument (some (encodeDocument doc)) = some (coerceDocument doc) := by
  simp [encodeDocument, decodeDocument, jlookup, decodeStrField, decodeNumField,
    decodePropsField, decode_encode_value_map, coerceDocument]

/-- Coercion is the identity on an `int`-free node. -/
theorem coerceNode_id (node : Node) (h : noVintMap node.Properties = true) :
    coerceNode node = node := by
  simp [coerceNode, coerce_id_of_noVint_map _ h]

/-- Coercion is the identity on an `int`-free relationship. -/
theorem coerceRelationship_id (rel : Relationship)
    (h : (noVintMap rel.Source.Properties && noVintMap rel.Target.Properties
      && noVintMap rel.Properties) = true) :
    coerceRelationship rel = rel := by
  rw [Bool.and_eq_true, Bool.and_eq_true] at h
  obtain ⟨⟨hs, ht⟩, hp⟩ := h
  simp [coerceRelationship, coerceNode_id _ hs, coerceNode_id _ ht,
    coerce_id_of_noVint_map _ hp]

theorem map_coerceNode_id (ns : List Node)
    (h : ns.all (fun node => noVintMap node.Properties) = true) :
    ns.map coerceNode = ns := by
  induction ns with
  | nil => rfl
  | cons n rest ih =>
      rw [List.all_cons, Bool.and_eq_true] at h
      simp [coerceNode_id n h.1, ih h.2]

theorem map_coerceRelationship_id (rs : List Relationship)
    (h : rs.all (fun rel => noVintMap rel.Source.Properties
      && noVintMap rel.Target.Properties && noVintMap rel.Properties) = true) :
    rs.map coerceRelationship = rs := by
  induction rs with
  | nil => rfl
  | cons r rest ih =>
      rw [List.all_cons, Bool.and_eq_true] at h
      simp [coerceRelationship_id r h.1, ih h.2]

/-- C5, amended.  `FromJSON (ToJSON gd)` always succeeds and yields the
document with the decoder's numeric coercion applied to every property and
metadata value (`int` values come back as `float64` of the same magnitude —
this is the only divergence); node and relationship counts are always
preserved, and whenever no property or metadata value is `int`-typed the
round trip is exact. -/
theorem ToJSON_FromJSON_roundtrip (gd : GraphDocument) :
    FromJSON gd.ToJSON = some (coerceGraphDocument gd)
    ∧ (coerceGraphDocument gd).Nodes.length = gd.Nodes.length
    ∧ (coerceGraphDocument gd).Relationships.length = gd.Relationships.length
    ∧ (gdNoVint gd = true → coerceGraphDocument gd = gd) := by
  refine ⟨?_, by simp [coerceGraphDocument], by simp [coerceGraphDocument], ?_⟩
  · simp [GraphDocument.ToJSON, FromJSON, jlookup, decodeNodes, decodeRelationships,
      decode_encode_nodes, decode_encode_relationships, decode_encode_document,
      coerceGraphDocument]
  · intro h
    rw [gdNoVint, Bool.and_eq_true, Bool.and_eq_true] at h
    obtain ⟨⟨hn, hr⟩, hm⟩ := h
    simp [coerceGraphDocument, map_coerceNode_id _ hn, map_coerceRelationship_id _ hr,
      coerceDocument, coerce_id_of_noVint_map _ hm]

/-- A one-node document with an `int`-valued property. -/
def intPropDocC5 : GraphDocument :=
  ⟨[⟨"1", "Person", [("a", .vint 1)]⟩], [], ⟨"", [], 0⟩⟩

/-- Counterexample to C5 as stated: an `int`-valued property does not
round-trip exactly — `json.Unmarshal` decodes the number into a `float64`,
so the decoded document differs from the original (`reflect.DeepEqual`
distinguishes `int(1)` from `float64(1)`). -/
theorem ToJSON_FromJSON_counterexample :
    FromJSON intPropDocC5.ToJSON ≠ some intPropDocC5 := by
  have h1 : FromJSON intPropDocC5.ToJSON =
      some ⟨[⟨"1", "Person", [("a", .vfloat ((1 : Int) : Rat))]⟩], [], ⟨"", [], 0⟩⟩ := rfl
  rw [h1]
  simp [intPropDocC5]

/-- Document with nested `int`-free property values for the C5 witness. -/
def richDocC5 : GraphDocument :=
  ⟨[⟨"1", "Person", [("name", .vstr "Alice"),
      ("tags", .vlist [.vstr "x", .vbool true, .vnull]),
      ("meta", .vmap [("pi", .vfloat (314 / 100))])]⟩,
    ⟨"2", "Person", []⟩],
   [⟨⟨"1", "Person", []⟩, ⟨"2", "Person", []⟩, "KNOWS",
      [("since", .vstr "2020")]⟩],
   ⟨"content", [("k", .vfloat 2)], 5 / 10⟩⟩

/-- Witness for the amended C5: the rich `int`-free document round-trips
exactly. -/
theorem ToJSON_FromJSON_roundtrip_witness :
    FromJSON richDocC5.ToJSON = some richDocC5 := by
  have h := ToJSON_FromJSON_roundtrip richDocC5
  exact h.2.2.2 rfl ▸ h.1

/-!
## Neo4j-backed store operations

The backend is external to the repository: the Go code sends fixed Cypher
query shapes through `session.Run` / `tx.Run`.  The model below gives those
fixed shapes their documented Cypher semantics over an explicit store state:
`MATCH` on a pattern with no occurrence binds no rows (the query succeeds
and the following `SET`/`DELETE` does nothing — no error); `CREATE` appends;
`MERGE` updates every match or creates on none; `SET n += m` merges the map
into the entity (a `null` value removes the key); `SET n = m` replaces the
whole property set.  Driver/connectivity failures are outside the model
except where an operation's control flow depends on them (the failure oracle
of `RemoveRelationships`); `driver == nil` guards are omitted (the driver is
initialized at construction).
-/

/-- Lookup in a Go `map[string]interface\x7b\x7d`. -/
def vlookup (m : List (String × Value)) (key : String) : Option Value :=
  (m.find? (fun e => e.1 == key)).map Prod.snd

/-- Set (insert or overwrite) one key of a property map. -/
def propSet (props : List (String × Value)) (k : String) (v : Value) :
    List (String × Value) :=
  if (props.find? (fun e => e.1 == k)).isSome then
    props.map (fun e => if e.1 == k then (k, v) else e)
  else props ++ [(k, v)]

/-- Remove one key of a property map. -/
def propRemove (props : List (String × Value)) (k : String) :
    List (String × Value) :=
  props.filter (fun e => e.1 != k)

/-- Cypher `SET n += $m`: set every key of `m` on the entity, a `null` value
removing the key. -/
def propsMerge (props upd : List (String × Value)) : List (String × Value) :=
  upd.foldl
    (fun acc e =>
      match e.2 with
      | .vnull => propRemove acc e.1
      | v => propSet acc e.1 v) props

/-- Cypher `SET n = $m`: the property set becomes exactly the non-null part
of `m`. -/
def propsReplace (upd : List (String × Value)) : List (String × Value) :=
  propsMerge [] upd

/-- A node of the Neo4j store: labels and a property map. -/
structure StoreNode where
  labels : List String
  props : List (String × Value)

/-- A relationship of the store; the query shapes used by the repository
match endpoints through their `id` property, so endpoints are recorded by
id. -/
structure StoreRel where
  sourceId : String
  targetId : String
  typ : String
  props : List (String × Value)

structure Store where
  nodes : List StoreNode
  rels : List StoreRel

/-- Does a store node match the Cypher pattern fragment `\x7bid: $id\x7d`
with a string parameter? -/
def nodeHasId (sn : StoreNode) (nodeID : String) : Bool :=
  match vlookup sn.props "id" with
  | some (.vstr s) => s == nodeID
  | _ => false

/-- Does a store node match `(:L1:L2 ... \x7bid: $id\x7d)`? -/
def nodeMatches (sn : StoreNode) (labels : List String) (nodeID : String) : Bool :=
  labels.all (fun l => sn.labels.contains l) && nodeHasId sn nodeID

/-- Does a store relationship match
`(s \x7bid: $sourceId\x7d)-[r:T]->(t \x7bid: $targetId\x7d)`? -/
def relMatches (sr : StoreRel) (sourceID targetID relType : String) : Bool :=
  sr.sourceId == sourceID && sr.targetId == targetID && sr.typ == relType

/-- `graphs.MergeMode` (`Create`, `Update`, `Upsert`, `Replace`;
`Upsert` is the default of `NewOptions`). -/
inductive MergeMode where
  | create
  | update
  | upsert
  | replace

/-- `BASE_ENTITY_LABEL`. -/
def BASE_ENTITY_LABEL : String := "__Entity__"

/-- The per-node query of `Neo4j.AddNodes`, by merge mode (with the
`baseEntityLabel` variants), interpreted over the store:
* Create: `CREATE (n:...\x7bid: $id\x7d) SET n += $properties` — always
  creates a fresh node;
* Update: `MATCH (n:Type \x7bid: $id\x7d) SET n += $properties` — merges the
  properties into every match, and is a row-less no-op when nothing matches;
* Replace: `MERGE (n:... \x7bid: $id\x7d) SET n = $properties`;
* Upsert: `MERGE (n:... \x7bid: $id\x7d) SET n += $properties`. -/
def applyAddNode (baseEntity : Bool) (mode : MergeMode) (st : Store) (node : Node) :
    Store :=
  let createLabels := if baseEntity then [node.Typ, BASE_ENTITY_LABEL] else [node.Typ]
  match mode with
  | .create =>
      { st with nodes := st.nodes ++
          [⟨createLabels, propsMerge [("id", .vstr node.ID)] node.Properties⟩] }
  | .update =>
      { st with nodes := st.nodes.map (fun sn =>
          if nodeMatches sn [node.Typ] node.ID then
            { sn with props := propsMerge sn.props node.Properties }
          else sn) }
  | .replace =>
      if st.nodes.any (fun sn => nodeMatches sn createLabels node.ID) then
        { st with nodes := st.nodes.map (fun sn =>
            if nodeMatches sn createLabels node.ID then
              { sn with props := propsReplace node.Properties }
            else sn) }
      else
        { st with nodes := st.nodes ++ [⟨createLabels, propsReplace node.Properties⟩] }
  | .upsert =>
      if st.nodes.any (fun sn => nodeMatches sn createLabels node.ID) then
        { st with nodes := st.nodes.map (fun sn =>
            if nodeMatches sn createLabels node.ID then
              { sn with props := propsMerge sn.props node.Properties }
            else sn) }
      else
        { st with nodes := st.nodes ++
            [⟨createLabels, propsMerge [("id", .vstr node.ID)] node.Properties⟩] }

/-- `Neo4j.AddNodes`: one query per node, in order; none of the generated
query shapes yields a query-execution error (a row-less `MATCH` included),
so with a reachable backend the loop always returns without error. -/
def Neo4j.AddNodes (baseEntity : Bool) (mode : MergeMode) (st : Store)
    (nodes : List Node) : Except String Store :=
  .ok (nodes.foldl (applyAddNode baseEntity mode) st)

/-- The per-relationship query of `Neo4j.AddRelationships`, by merge mode
(`rel.Type` is interpolated into the query as-is; endpoints are matched by
bare `\x7bid: ...\x7d` patterns without labels):
* Create: `MATCH (s),(t) CREATE (s)-[r:T]->(t) SET r = $properties` — one
  relationship per matching endpoint pair, a no-op when either side has no
  match;
* Update: `MATCH (s)-[r:T]->(t) SET r += $properties` — merges into every
  matching relationship, a row-less no-op when none matches;
* Replace / Upsert: `MATCH (s),(t) MERGE (s)-[r:T]->(t)` then
  `SET r = / += $properties`. -/
def applyAddRelationship (mode : MergeMode) (st : Store) (rel : Relationship) :
    Store :=
  let cs := st.nodes.countP (fun sn => nodeHasId sn rel.Source.ID)
  let ct := st.nodes.countP (fun sn => nodeHasId sn rel.Target.ID)
  let freshRel : StoreRel :=
    ⟨rel.Source.ID, rel.Target.ID, rel.Typ, propsReplace rel.Properties⟩
  match mode with
  | .create =>
      { st with rels := st.rels ++ List.replicate (cs * ct) freshRel }
  | .update =>
      { st with rels := st.rels.map (fun sr =>
          if relMatches sr rel.Source.ID rel.Target.ID rel.Typ then
            { sr with props := propsMerge sr.props rel.Properties }
          else sr) }
  | .replace =>
      if st.rels.any (fun sr => relMatches sr rel.Source.ID rel.Target.ID rel.Typ) then
        { st with rels := st.rels.map (fun sr =>
            if relMatches sr rel.Source.ID rel.Target.ID rel.Typ then
              { sr with props := propsReplace rel.Properties }
            else sr) }
      else
        { st with rels := st.rels ++ List.replicate (cs * ct) freshRel }
  | .upsert =>
      if st.rels.any (fun sr => relMatches sr rel.Source.ID rel.Target.ID rel.Typ) then
        { st with rels := st.rels.map (fun sr =>
            if relMatches sr rel.Source.ID rel.Target.ID rel.Typ then
              { sr with props := propsMerge sr.props rel.Properties }
            else sr) }
      else
        { st with rels := st.rels ++ List.replicate (cs * ct) freshRel }

/-- `Neo4j.AddRelationships`: one query per relationship, in order; as with
`AddNodes`, no generated shape errors on a missing entity. -/
def Neo4j.AddRelationships (mode : MergeMode) (st : Store)
    (rels : List Relationship) : Except String Store :=
  .ok (rels.foldl (applyAddRelationship mode) st)

/-- C2.  The claim (and the `MergeModeUpdate` documentation in
`graphstore.go`: updates existing entities, "fails if they don't exist")
says Update mode on a missing entity fails with a not-found error.  The code
instead runs a `MATCH ... SET` which binds no rows and reports no error:
evaluated on the empty store, both `AddNodes` and `AddRelationships` under
Update mode return success and leave the store unchanged — a silent no-op,
not a not-found failure. -/
theorem AddNodes_update_missing_is_silent_noop :
    Neo4j.AddNodes false .update ⟨[], []⟩ [⟨"1", "Person", [("a", .vint 1)]⟩] =
      .ok ⟨[], []⟩
    ∧ Neo4j.AddRelationships .update ⟨[], []⟩
        [⟨⟨"1", "Person", []⟩, ⟨"2", "Person", []⟩, "KNOWS", []⟩] = .ok ⟨[], []⟩ :=
  ⟨by rfl, by rfl⟩

/-- One backend import call of the batch pipeline: the node import or the
relationship import of a single document (a document with no nodes, or no
relationships, issues no query inside its call but keeps its place in the
order). -/
inductive ImportEvent where
  | importNodes (doc : GraphDocument)
  | importRelationships (doc : GraphDocument)

/-- `processBatch`: the node imports of every document of the chunk first, in
document order, then the relationship imports, in document order. -/
def Neo4j.processBatch (batch : List GraphDocument) : List ImportEvent :=
  batch.map ImportEvent.importNodes ++ batch.map ImportEvent.importRelationships

/-- The slicing loop of `AddGraphDocument`
(`for i := 0; i < len(docs); i += batchSize`, slice `docs[i:min(i+bs,len)]`),
as recursion on the remaining suffix.  The `0` case is unreachable: the
effective batch size is always positive. -/
def addGraphDocumentLoop : List GraphDocument → Nat → List ImportEvent
  | [], _ => []
  | _ :: _, 0 => []
  | d :: rest, b + 1 =>
      Neo4j.processBatch ((d :: rest).take (b + 1)) ++
        addGraphDocumentLoop ((d :: rest).drop (b + 1)) (b + 1)
termination_by l _ => l.length
decreasing_by simp [List.length_drop]; omega

/-- The batch size actually used: `100` when the configured `BatchSize` is
non-positive. -/
def effectiveBatchSize (batchSize : Int) : Nat :=
  if batchSize ≤ 0 then 100 else batchSize.toNat

/-- `Neo4j.AddGraphDocument`, abstracted to the sequence of backend import
calls it performs. -/
def Neo4j.AddGraphDocument (docs : List GraphDocument) (batchSize : Int) :
    List ImportEvent :=
  addGraphDocumentLoop docs (effectiveBatchSize batchSize)

/-- Claim-side definition (from the specification text): partition a list
into consecutive chunks of size `b`. -/
def makeBatches : List GraphDocument → Nat → List (List GraphDocument)
  | [], _ => []
  | _ :: _, 0 => []
  | d :: rest, b + 1 =>
      (d :: rest).take (b + 1) :: makeBatches ((d :: rest).drop (b + 1)) (b + 1)
termination_by l _ => l.length
decreasing_by simp [List.length_drop]; omega

theorem effectiveBatchSize_pos (batchSize : Int) : 0 < effectiveBatchSize batchSize := by
  unfold effectiveBatchSize
  split <;> omega

/-- The chunks concatenate back to the input, in order. -/
theorem makeBatches_join : ∀ (l : List GraphDocument) (b : Nat),
    (makeBatches l b).flatten = l ∨ b = 0
  | [], _ => .inl (by simp [makeBatches])
  | _ :: _, 0 => .inr rfl
  | d :: rest, b + 1 => by
      left
      rw [makeBatches, List.flatten_cons]
      rcases makeBatches_join ((d :: rest).drop (b + 1)) (b + 1) with h | h
      · rw [h, List.take_append_drop]
      · exact absurd h (Nat.succ_ne_zero b)
termination_by l _ => l.length
decreasing_by simp [List.length_drop]; omega

/-- Every chunk is non-empty and no longer than the batch size. -/
theorem makeBatches_sizes : ∀ (l : List GraphDocument) (b : Nat),
    ∀ c ∈ makeBatches l b, c ≠ [] ∧ c.length ≤ b
  | [], _ => by simp [makeBatches]
  | _ :: _, 0 => by simp [makeBatches]
  | d :: rest, b + 1 => by
      intro c hc
      rw [makeBatches] at hc
      rcases List.mem_cons.mp hc with rfl | h
      · exact ⟨by simp, by simp⟩
      · exact makeBatches_sizes _ _ c h
termination_by l _ => l.length
decreasing_by simp [List.length_drop]; omega

/-- Every chunk except possibly the last has length exactly the batch
size. -/
theorem makeBatches_full : ∀ (l : List GraphDocument) (b : Nat) (i : Nat),
    i + 1 < (makeBatches l b).length → ((makeBatches l b).getD i []).length = b
  | [], _, i, h => by simp [makeBatches] at h
  | _ :: _, 0, i, h => by simp [makeBatches] at h
  | d :: rest, b + 1, i, h => by
      rw [makeBatches] at h ⊢
      cases i with
      | zero =>
          simp only [List.getD_cons_zero]
          have hne : makeBatches ((d :: rest).drop (b + 1)) (b + 1) ≠ [] := by
            intro he
            rw [List.length_cons, he] at h
            simp at h
          have hd : (d :: rest).drop (b + 1) ≠ [] := by
            intro he
            exact hne (by rw [he, makeBatches])
          have hlen : b + 1 ≤ rest.length + 1 := by
            by_contra hlt
            refine hd (List.drop_eq_nil_of_le ?_)
            simp only [List.length_cons]
            omega
          rw [List.length_take, List.length_cons]
          omega
      | succ i' =>
          simp only [List.getD_cons_succ]
          apply makeBatches_full _ _ i'
          rw [List.length_cons] at h
          omega
termination_by l _ => l.length
decreasing_by simp [List.length_drop]; omega

/-- The import loop is exactly the per-chunk two-phase trace. -/
theorem addGraphDocumentLoop_eq_bind : ∀ (l : List GraphDocument) (b : Nat),
    addGraphDocumentLoop l b = (makeBatches l b).flatMap Neo4j.processBatch
  | [], _ => by simp [addGraphDocumentLoop, makeBatches]
  | _ :: _, 0 => by simp [addGraphDocumentLoop, makeBatches]
  | d :: rest, b + 1 => by
      rw [addGraphDocumentLoop, makeBatches, List.flatMap_cons,
        addGraphDocumentLoop_eq_bind ((d :: rest).drop (b + 1)) (b + 1)]
termination_by l _ => l.length
decreasing_by simp [List.length_drop]; omega

/-- C7.  `AddGraphDocument` partitions the input into consecutive chunks of
the effective batch size (`100` when the configured `BatchSize` is
non-positive): the chunks concatenate back to the input in order, each chunk
is non-empty and at most the batch size, every chunk but the last is full,
and the performed trace is chunk by chunk, with every document's node import
of a chunk preceding every relationship import of that chunk. -/
theorem AddGraphDocument_batching (docs : List GraphDocument) (batchSize : Int) :
    (makeBatches docs (effectiveBatchSize batchSize)).flatten = docs
    ∧ (∀ c ∈ makeBatches docs (effectiveBatchSize batchSize),
        c ≠ [] ∧ c.length ≤ effectiveBatchSize batchSize)
    ∧ (∀ i : Nat, i + 1 < (makeBatches docs (effectiveBatchSize batchSize)).length →
        ((makeBatches docs (effectiveBatchSize batchSize)).getD i []).length =
          effectiveBatchSize batchSize)
    ∧ Neo4j.AddGraphDocument docs batchSize =
        (makeBatches docs (effectiveBatchSize batchSize)).flatMap Neo4j.processBatch
    ∧ (∀ batch, Neo4j.processBatch batch =
        batch.map ImportEvent.importNodes ++ batch.map ImportEvent.importRelationships)
    ∧ (batchSize ≤ 0 → effectiveBatchSize batchSize = 100) := by
  refine ⟨?_, makeBatches_sizes docs _, makeBatches_full docs _,
    addGraphDocumentLoop_eq_bind docs _, fun _ => rfl, fun h => by simp [effectiveBatchSize, h]⟩
  rcases makeBatches_join docs (effectiveBatchSize batchSize) with h | h
  · exact h
  · exact absurd h (Nat.pos_iff_ne_zero.mp (effectiveBatchSize_pos batchSize))

/-- Three small documents for the C7 witness. -/
def docsC7 : List GraphDocument :=
  [⟨[⟨"1", "A", []⟩], [], ⟨"d1", [], 0⟩⟩,
   ⟨[⟨"2", "A", []⟩], [], ⟨"d2", [], 0⟩⟩,
   ⟨[⟨"3", "A", []⟩], [], ⟨"d3", [], 0⟩⟩]

/-- Witness for C7 at three documents and batch size 2. -/
theorem AddGraphDocument_batching_witness :
    (makeBatches docsC7 (effectiveBatchSize 2)).flatten = docsC7
    ∧ (∀ c ∈ makeBatches docsC7 (effectiveBatchSize 2),
        c ≠ [] ∧ c.length ≤ effectiveBatchSize 2)
    ∧ (∀ i : Nat, i + 1 < (makeBatches docsC7 (effectiveBatchSize 2)).length →
        ((makeBatches docsC7 (effectiveBatchSize 2)).getD i []).length =
          effectiveBatchSize 2)
    ∧ Neo4j.AddGraphDocument docsC7 2 =
        (makeBatches docsC7 (effectiveBatchSize 2)).flatMap Neo4j.processBatch
    ∧ (∀ batch, Neo4j.processBatch batch =
        batch.map ImportEvent.importNodes ++ batch.map ImportEvent.importRelationships)
    ∧ ((2 : Int) ≤ 0 → effectiveBatchSize 2 = 100) :=
  AddGraphDocument_batching docsC7 2

/-- `graphs.RelationshipIdentifier` (`Type` renamed `Typ`). -/
structure RelationshipIdentifier where
  SourceID : String
  TargetID : String
  Typ : String

/-- The store effect of one successful `RemoveRelationship` call:
`MATCH (s \x7bid: $sourceId\x7d)-[r:T]->(t \x7bid: $targetId\x7d) DELETE r`
deletes every matching relationship and nothing else (a no-op when none
matches). -/
def removeRelStep (st : Store) (rid : RelationshipIdentifier) : Store :=
  { st with
    rels := st.rels.filter
      (fun sr => !(relMatches sr rid.SourceID rid.TargetID rid.Typ)) }

/-- `Neo4j.RemoveRelationships`: a loop over the identifiers in order, each
iteration calling `RemoveRelationship` and returning that call's error as
soon as one fails.  `failAt k` is the outcome of the k-th backend call
(`none`: the deletion executes; `some e`: the call fails, e.g. lost
connectivity, before taking effect).  The returned pair is the final backend
state together with the surfaced error. -/
def Neo4j.RemoveRelationships (failAt : Nat → Option String) :
    Nat → Store → List RelationshipIdentifier → Store × Option String
  | _, st, [] => (st, none)
  | k, st, rid :: rest =>
      match failAt k with
      | some e => (st, some e)
      | none => Neo4j.RemoveRelationships failAt (k + 1) (removeRelStep st rid) rest

/-- The loop up to the first failing call, at any starting counter. -/
theorem removeRelLoop_first_fail (failAt : Nat → Option String) (e : String) :
    ∀ (ids : List RelationshipIdentifier) (j k : Nat) (st : Store),
      j < ids.length → (∀ i, i < j → failAt (k + i) = none) →
      failAt (k + j) = some e →
      Neo4j.RemoveRelationships failAt k st ids =
        ((ids.take j).foldl removeRelStep st, some e)
  | [], j, _, _, hj, _, _ => absurd hj (by simp)
  | rid :: rest, 0, k, st, _, _, hfail => by
      rw [Neo4j.RemoveRelationships]
      simp only [Nat.add_zero] at hfail
      rw [hfail]
      rfl
  | rid :: rest, j + 1, k, st, hj, hpre, hfail => by
      rw [Neo4j.RemoveRelationships]
      have h0 : failAt k = none := by simpa using hpre 0 (Nat.succ_pos j)
      rw [h0]
      have ih := removeRelLoop_first_fail failAt e rest j (k + 1) (removeRelStep st rid)
        (by simpa using hj)
        (fun i hi => by
          have := hpre (i + 1) (by omega)
          simpa [Nat.add_assoc, Nat.add_comm 1 i] using this)
        (by
          have : k + 1 + j = k + (j + 1) := by omega
          rw [this, hfail])
      rw [ih]
      rfl

/-- C8.  `RemoveRelationships` is a best-effort loop: when the calls before
index `j` succeed and the `j`-th fails, the call returns that failure, the
backend state reflects exactly the deletions for the first `j` identifiers
(no rollback), and the identifiers after the failing one are never
attempted. -/
theorem RemoveRelationships_best_effort (failAt : Nat → Option String)
    (e : String) (ids : List RelationshipIdentifier) (st : Store) (j : Nat)
    (hj : j < ids.length) (hpre : ∀ i, i < j → failAt i = none)
    (hfail : failAt j = some e) :
    Neo4j.RemoveRelationships failAt 0 st ids =
      ((ids.take j).foldl removeRelStep st, some e) :=
  removeRelLoop_first_fail failAt e ids j 0 st hj
    (fun i hi => by simpa using hpre i hi) (by simpa using hfail)

/-- Failure oracle for the C8 witness: the second backend call fails. -/
def failAtC8 : Nat → Option String :=
  fun k => if k == 1 then some "connection reset" else none

/-- Store and identifiers for the C8 witness. -/
def storeC8 : Store :=
  ⟨[⟨["Person"], [("id", .vstr "1")]⟩, ⟨["Person"], [("id", .vstr "2")]⟩],
   [⟨"1", "2", "KNOWS", []⟩, ⟨"2", "1", "KNOWS", []⟩, ⟨"1", "2", "LIKES", []⟩]⟩

def idsC8 : List RelationshipIdentifier :=
  [⟨"1", "2", "KNOWS"⟩, ⟨"2", "1", "KNOWS"⟩, ⟨"1", "2", "LIKES"⟩]

/-- Witness for C8: with the first call succeeding and the second failing,
the loop surfaces the failure, keeps the first deletion, and never attempts
the third identifier. -/
theorem RemoveRelationships_best_effort_witness :
    Neo4j.RemoveRelationships failAtC8 0 storeC8 idsC8 =
      ((idsC8.take 1).foldl removeRelStep storeC8, some "connection reset") :=
  RemoveRelationships_best_effort failAtC8 "connection reset" idsC8 storeC8 1
    (by decide) (by decide) rfl

/-- A query-result row (`record.AsMap()`). -/
abbrev Record := List (String × Value)

/-- `cleanStringValues`: replace newlines and carriage returns with
spaces. -/
def cleanStringValues (text : String) : String :=
  (text.replace "\n" " ").replace "\r" " "

mutual

/-- Rendering of a dynamic value by Go `fmt` `%v`, on the `Value` universe
(the float case renders the exact rational stand-in — an approximation of Go
float formatting; no theorem depends on this rendering). -/
def govFormat : Value → String
  | .vnull => "<nil>"
  | .vbool b => if b then "true" else "false"
  | .vint n => toString n
  | .vfloat q => toString q
  | .vstr s => s
  | .vlist l => "[" ++ govFormatList l ++ "]"
  | .vmap m => "map[" ++ govFormatMap m ++ "]"

def govFormatList : List Value → String
  | [] => ""
  | [x] => govFormat x
  | x :: xs => govFormat x ++ " " ++ govFormatList xs

def govFormatMap : List (String × Value) → String
  | [] => ""
  | [(k, v)] => k ++ ":" ++ govFormat v
  | (k, v) :: rest => k ++ ":" ++ govFormat v ++ " " ++ govFormatMap rest

end

/-- The `%v` rendering of the `[]string` of cleaned distinct values
(`Available options: ...`). -/
def availableOptions (values : List Value) : String :=
  let cleanValues := values.filterMap (fun val =>
    match val with
    | .vstr s => some (cleanStringValues s)
    | _ => none)
  "Available options: [" ++ String.intercalate " " cleanValues ++ "]"

/-- `formatEnhancedProperty`: render one property map with its
example/range annotation.  The empty string means the property is skipped;
the inner `Option` distinguishes the early `return ""` of the oversized-LIST
branch (`none`) from an empty example (`some ""`). -/
def formatEnhancedProperty (propMap : Record) : String :=
  match vlookup propMap "property", vlookup propMap "type" with
  | some (.vstr name), some (.vstr propType) =>
      let exampleOpt : Option String :=
        if propType == "STRING" then
          match vlookup propMap "values" with
          | some (.vlist values) =>
              if values.length > 0 then
                match vlookup propMap "distinct_count" with
                | some (.vint count) =>
                    if count > DISTINCT_VALUE_LIMIT then
                      match values with
                      | .vstr firstVal :: _ =>
                          some ("Example: \"" ++ cleanStringValues firstVal ++ "\"")
                      | _ => some ""
                    else some (availableOptions values)
                | some _ => some (availableOptions values)
                | none => some ""
              else some ""
          | _ => some ""
        else if propType == "INTEGER" || propType == "FLOAT" || propType == "DATE"
            || propType == "DATE_TIME" || propType == "LOCAL_DATE_TIME" then
          match vlookup propMap "min" with
          | some mn =>
              match vlookup propMap "max" with
              | some mx => some ("Min: " ++ govFormat mn ++ ", Max: " ++ govFormat mx)
              | none => some ""
          | none =>
              match vlookup propMap "values" with
              | some (.vlist (v0 :: _)) => some ("Example: \"" ++ govFormat v0 ++ "\"")
              | _ => some ""
        else if propType == "LIST" then
          match vlookup propMap "min_size" with
          | some (.vint mn) =>
              if mn ≤ (LIST_LIMIT : Int) then
                match vlookup propMap "max_size" with
                | some maxSize =>
                    some ("Min Size: " ++ govFormat (.vint mn) ++ ", Max Size: "
                      ++ govFormat maxSize)
                | none => some ""
              else none
          | some _ => none
          | none => some ""
        else some ""
      match exampleOpt with
      | none => ""
      | some ex =>
          if ex != "" then "`" ++ name ++ "`: " ++ propType ++ " " ++ ex
          else "`" ++ name ++ "`: " ++ propType
  | _, _ => ""

/-- Basic-mode property strings: `name: type` for each entry of the
properties list that is a map holding string `property` and `type`. -/
def formatPropsBasic (propsList : List Value) : List String :=
  propsList.filterMap (fun prop =>
    match prop with
    | .vmap propMap =>
        match vlookup propMap "property", vlookup propMap "type" with
        | some (.vstr name), some (.vstr propType) => some (name ++ ": " ++ propType)
        | _, _ => none
    | _ => none)

/-- Enhanced-mode property lines (non-skipped properties, indented). -/
def formatPropsEnhanced (propsList : List Value) : List String :=
  propsList.filterMap (fun prop =>
    match prop with
    | .vmap propMap =>
        let formatted := formatEnhancedProperty propMap
        if formatted != "" then some ("  - " ++ formatted) else none
    | _ => none)

/-- One section of `formatSchema` over a label-or-type map. -/
def formatPropsSection (enhanced : Bool) (props : List (String × Value)) :
    List String :=
  props.foldl (fun parts entry =>
    match entry.2 with
    | .vlist propsList =>
        if enhanced then
          parts ++ ("- **" ++ entry.1 ++ "**") :: formatPropsEnhanced propsList
        else
          let propStrs := formatPropsBasic propsList
          if propStrs.length > 0 then
            parts ++ [entry.1 ++ " \x7b" ++ String.intercalate ", " propStrs ++ "\x7d"]
          else parts
    | _ => parts) []

/-- The structured schema: the fixed-key `map[string]interface\x7b\x7d` the
code builds, rendered as a typed record (`metadata` holds its `constraint`
and `index` keys as the two metadata fields). -/
structure StructuredSchema where
  node_props : List (String × Value)
  rel_props : List (String × Value)
  relationships : List Record
  metadataConstraint : List Record
  metadataIndex : List Record

/-- `formatSchema`: three fixed sections in order.  (Go iterates its maps in
unspecified order; the model iterates the association lists in insertion
order — one admissible iteration order.) -/
def formatSchema (enhanced : Bool) (schema : StructuredSchema) : String :=
  let parts :=
    "Node properties:" :: formatPropsSection enhanced schema.node_props
      ++ "Relationship properties:" :: formatPropsSection enhanced schema.rel_props
      ++ "The relationships:" :: schema.relationships.filterMap (fun rel =>
          match vlookup rel "start", vlookup rel "type", vlookup rel "end" with
          | some (.vstr s), some (.vstr t), some (.vstr e) =>
              some ("(:" ++ s ++ ")-[:" ++ t ++ "]->(:" ++ e ++ ")")
          | _, _, _ => none)
  String.intercalate "\n" parts

/-- Go map assignment `m[k] = v` on an association list. -/
def assocSet (m : List (String × Value)) (k : String) (v : Value) :
    List (String × Value) :=
  if (m.find? (fun e => e.1 == k)).isSome then
    m.map (fun e => if e.1 == k then (k, v) else e)
  else m ++ [(k, v)]

/-- Build `node_props` from the node-properties query records: for every
record whose `output` is a map with a string `labels` and a `properties`
entry, set `node_props[labels] = properties`. -/
def processNodeRecords (records : List Record) : List (String × Value) :=
  records.foldl (fun acc r =>
    match vlookup r "output" with
    | some (.vmap output) =>
        match vlookup output "labels", vlookup output "properties" with
        | some (.vstr label), some props => assocSet acc label props
        | _, _ => acc
    | _ => acc) []

/-- Build `rel_props` (keyed by the `type` field of `output`). -/
def processRelPropRecords (records : List Record) : List (String × Value) :=
  records.foldl (fun acc r =>
    match vlookup r "output" with
    | some (.vmap output) =>
        match vlookup output "type", vlookup output "properties" with
        | some (.vstr relType), some props => assocSet acc relType props
        | _, _ => acc
    | _ => acc) []

/-- Collect the relationship-topology `output` maps. -/
def processRelRecords (records : List Record) : List Record :=
  records.filterMap (fun r =>
    match vlookup r "output" with
    | some (.vmap output) => some output
    | _ => none)

/-- The outcomes of the five backend queries `RefreshSchema` issues, in
order: node properties, relationship properties, relationship topology,
`SHOW CONSTRAINTS`, and the `apoc.schema.nodes` index query. -/
structure QueryOutcomes where
  nodeProps : Except String (List Record)
  relProps : Except String (List Record)
  relTopology : Except String (List Record)
  constraints : Except String (List Record)
  indexes : Except String (List Record)

/-- The schema cache guarded by `schemaMux`: the structured snapshot and its
rendered string, replaced together. -/
structure SchemaCacheState where
  structuredSchema : StructuredSchema
  schemaCache : String

/-- `Neo4j.RefreshSchema`: fail (leaving the cache untouched) if any of the
three schema queries fails; then build the structured schema, with the
constraint and index metadata best-effort — a failing metadata query yields
an empty list instead of failing the refresh — and atomically store the
snapshot together with its rendering. -/
def Neo4j.RefreshSchema (enhanced : Bool) (q : QueryOutcomes)
    (cache : SchemaCacheState) : SchemaCacheState × Option String :=
  match q.nodeProps with
  | .error e => (cache, some e)
  | .ok nodeRecs =>
    match q.relProps with
    | .error e => (cache, some e)
    | .ok relRecs =>
      match q.relTopology with
      | .error e => (cache, some e)
      | .ok topoRecs =>
          let ss : StructuredSchema :=
            { node_props := processNodeRecords nodeRecs
              rel_props := processRelPropRecords relRecs
              relationships := processRelRecords topoRecs
              metadataConstraint :=
                match q.constraints with
                | .ok recs => recs
                | .error _ => []
              metadataIndex :=
                match q.indexes with
                | .ok recs => recs
                | .error _ => [] }
          (⟨ss, formatSchema enhanced ss⟩, none)

/-- C9.  When the three schema queries succeed, `RefreshSchema` succeeds
regardless of the constraint and index queries: a failing metadata query
contributes an empty list to the snapshot's metadata, while the
node-property, relationship-property and relationship-topology parts are
still produced from their records and cached together with their
rendering. -/
theorem RefreshSchema_metadata_best_effort (enhanced : Bool) (q : QueryOutcomes)
    (cache : SchemaCacheState) (nodeRecs relRecs topoRecs : List Record)
    (h1 : q.nodeProps = .ok nodeRecs) (h2 : q.relProps = .ok relRecs)
    (h3 : q.relTopology = .ok topoRecs) :
    ∃ st, Neo4j.RefreshSchema enhanced q cache = (st, none)
      ∧ st.structuredSchema.node_props = processNodeRecords nodeRecs
      ∧ st.structuredSchema.rel_props = processRelPropRecords relRecs
      ∧ st.structuredSchema.relationships = processRelRecords topoRecs
      ∧ (∀ e, q.constraints = .error e → st.structuredSchema.metadataConstraint = [])
      ∧ (∀ e, q.indexes = .error e → st.structuredSchema.metadataIndex = [])
      ∧ st.schemaCache = formatSchema enhanced st.structuredSchema := by
  obtain ⟨np, rp, rt, cs, ix⟩ := q
  dsimp only at h1 h2 h3
  subst h1; subst h2; subst h3
  cases cs <;> cases ix <;>
    exact ⟨_, rfl, rfl, rfl, rfl,
      fun e he => by simp_all, fun e he => by simp_all, rfl⟩

/-- A node-properties record for the C9 witness. -/
def recC9 : Record :=
  [("output", .vmap [("labels", .vstr "Person"),
    ("properties", .vlist [.vmap [("property", .vstr "name"),
      ("type", .vstr "STRING")]])])]

/-- Query outcomes for the C9 witness: schema queries succeed, both metadata
queries fail. -/
def qC9 : QueryOutcomes :=
  ⟨.ok [recC9], .ok [], .ok [], .error "access denied", .error "apoc missing"⟩

def cacheC9 : SchemaCacheState := ⟨⟨[], [], [], [], []⟩, ""⟩

/-- Witness for C9: with both metadata queries failing, the refresh still
succeeds and produces the schema parts with empty metadata lists. -/
theorem RefreshSchema_metadata_best_effort_witness :
    ∃ st, Neo4j.RefreshSchema false qC9 cacheC9 = (st, none)
      ∧ st.structuredSchema.node_props = processNodeRecords [recC9]
      ∧ st.structuredSchema.rel_props = processRelPropRecords []
      ∧ st.structuredSchema.relationships = processRelRecords []
      ∧ (∀ e, qC9.constraints = .error e → st.structuredSchema.metadataConstraint = [])
      ∧ (∀ e, qC9.indexes = .error e → st.structuredSchema.metadataIndex = [])
      ∧ st.schemaCache = formatSchema false st.structuredSchema :=
  RefreshSchema_metadata_best_effort false qC9 cacheC9 [recC9] [] [] rfl rfl rfl
